import Mathlib

/-!
Shallow embedding of the family-office portal frontend
(`frontend/src/components/{Messages,Dashboard,DocumentManagement}.js` and the
Meetings component). Entities are the JSON records of §3 of the design
document; component logic is translated function by function from the source.
-/

/-- A message record as returned by `GET /api/messages`. -/
structure Message where
  id : String
  sender_id : String
  recipient_id : String
  family_id : String
  content : String
  created_at : String
  is_read : Bool
deriving DecidableEq, Repr

/-- A document record as returned by `GET /api/documents`.
`description` is an optional field in the backend payload (the source guards
it with optional chaining `doc.description?.`), hence `Option String`. -/
structure Document where
  id : String
  original_filename : String
  document_type : String
  description : Option String
  tags : List String
  file_size : Nat
  uploaded_at : String
deriving DecidableEq, Repr

/-- A meeting record as returned by `GET /api/meetings`.  `start_time` is kept
as the epoch-milliseconds value of the parsed `Date`; the source only ever
compares `new Date(meeting.start_time)` with `new Date()`, which is numeric
comparison of those epoch values. -/
structure Meeting where
  id : String
  title : String
  description : String
  start_time : Int
  end_time : Int
  family_id : String
  advisor_id : String
  status : String
deriving DecidableEq, Repr

/-- A family record as returned by `GET /api/families`. -/
structure Family where
  id : String
  name : String
deriving DecidableEq, Repr

/-- A user-facing toast notification (`react-hot-toast`): `toast.success` /
`toast.error`. -/
inductive Toast where
  | success (msg : String)
  | error (msg : String)
deriving DecidableEq, Repr

/-! ### Messages component (`Messages.js`) -/

/-- JavaScript's `<` on individual characters of a string: numeric comparison
of the character codes. -/
def charLt (a b : Char) : Bool :=
  a.toNat < b.toNat

/-- Lexicographic string comparison over the character lists, as performed by
JavaScript's default sort comparator on strings. -/
def strLtAux : List Char → List Char → Bool
  | [], [] => false
  | [], _ :: _ => true
  | _ :: _, [] => false
  | a :: as, b :: bs =>
    if charLt a b then true else if charLt b a then false else strLtAux as bs

/-- `a < b` for strings under JavaScript's default sort comparator. -/
def strLt (a b : String) : Bool :=
  strLtAux a.data b.data

/-- `[a, b].sort()` on a two-element array of strings: JavaScript's default
sort comparator orders strings lexicographically, so the result is `[b, a]`
exactly when `b < a`, else `[a, b]`. -/
def sortPair (a b : String) : String × String :=
  if strLt b a then (b, a) else (a, b)

/-- `.join('-')` applied to the sorted two-element array. -/
def joinKey (p : String × String) : String :=
  p.1 ++ "-" ++ p.2

/-- `const conversationKey = [message.sender_id, message.recipient_id].sort().join('-')`
(`Messages.js` line 89). -/
def conversationKey (m : Message) : String :=
  joinKey (sortPair m.sender_id m.recipient_id)

/-- One step of the grouping loop body (`Messages.js` lines 90–93): a plain
JavaScript object keyed by strings preserves key insertion order, so it is
modelled as an association list; `grouped[k].push(m)` appends to the entry for
`k`, creating `[m]` at the end when the key is new. -/
def insertGrouped (g : List (String × List Message)) (k : String) (m : Message) :
    List (String × List Message) :=
  match g with
  | [] => [(k, [m])]
  | (k', ms) :: rest =>
    if k' = k then (k', ms ++ [m]) :: rest else (k', ms) :: insertGrouped rest k m

/-- `groupMessagesByConversation` (`Messages.js` lines 86–96): fold the input
messages in arrival order into the keyed groups. -/
def groupMessagesByConversation (msgs : List Message) : List (String × List Message) :=
  msgs.foldl (fun g m => insertGrouped g (conversationKey m) m) []

/-- Read the group stored under key `k` (`grouped[k]`), empty when absent. -/
def lookupKey (g : List (String × List Message)) (k : String) : List Message :=
  match g with
  | [] => []
  | (k', ms) :: rest => if k' = k then ms else lookupKey rest k

/-- Total number of messages across all groups. -/
def totalGrouped (g : List (String × List Message)) : Nat :=
  (g.map (fun p => p.2.length)).sum

/-- `Object.keys(grouped)`: the keys in insertion order. -/
def keysOf (g : List (String × List Message)) : List String :=
  g.map Prod.fst

/-- The code points removed by JavaScript's `String.prototype.trim`: the
ECMAScript WhiteSpace set (tab, vertical tab, form feed, space, no-break
space, zero width no-break space, and the Unicode `Zs` space separators
U+1680, U+2000–U+200A, U+202F, U+205F, U+3000) together with the
LineTerminator set (line feed, carriage return, line separator, paragraph
separator). -/
def isJsSpace (c : Char) : Bool :=
  c = '\t' || c = '\n' || c = '\u000B' || c = '\u000C' || c = '\r' ||
  c = ' ' || c = '\u00A0' || c = '\u1680' ||
  (0x2000 ≤ c.toNat && c.toNat ≤ 0x200A) ||
  c = '\u2028' || c = '\u2029' || c = '\u202F' || c = '\u205F' ||
  c = '\u3000' || c = '\uFEFF'

/-- `s.trim()`: strip leading and trailing whitespace. -/
def trimStr (s : String) : String :=
  ⟨((s.data.dropWhile isJsSpace).reverse.dropWhile isJsSpace).reverse⟩

/-- Component state of `Messages.js` (lines 14–21) that the send path touches:
the fetched list, the loading flag, the three compose-form fields and the
modal flag. -/
structure MessagesState where
  messages : List Message
  loading : Bool
  newMessage : String
  selectedRecipient : String
  selectedFamily : String
  showNewMessageModal : Bool
deriving DecidableEq, Repr

/-- Outcome of the `POST /api/messages` request issued by `sendMessage`. -/
inductive PostOutcome where
  | ok
  | err
deriving DecidableEq, Repr

/-- Outcome of a `GET /api/messages` request (`fetchMessages`). -/
inductive FetchOutcome where
  | ok (msgs : List Message)
  | err
deriving DecidableEq, Repr

/-- Result of running `sendMessage`: the state afterwards, the toasts shown in
order, and whether the POST request was actually issued. -/
structure SendOutput where
  state : MessagesState
  toasts : List Toast
  didPost : Bool
deriving DecidableEq, Repr

/-- `fetchMessages` (`Messages.js` lines 29–39): on success replace the
message list with the response, on failure toast `'Failed to fetch messages'`
and keep the list; either way clear `loading`. -/
def fetchMessages (st : MessagesState) (res : FetchOutcome) :
    MessagesState × List Toast :=
  match res with
  | .ok msgs => ({ st with messages := msgs, loading := false }, [])
  | .err => ({ st with loading := false }, [Toast.error "Failed to fetch messages"])

/-- `sendMessage` (`Messages.js` lines 60–84).  Validation first: an empty (or
whitespace-only, via `.trim()`) message, empty recipient or empty family is
falsy in JavaScript, so the handler toasts `'Please fill all fields'` and
returns without posting.  Otherwise the POST is issued; on failure the catch
block only toasts `'Failed to send message'`; on success it toasts success,
clears the form, closes the modal and re-fetches the message list. -/
def sendMessage (st : MessagesState) (post : PostOutcome) (refetch : FetchOutcome) :
    SendOutput :=
  if trimStr st.newMessage = "" ∨ st.selectedRecipient = "" ∨ st.selectedFamily = "" then
    ⟨st, [Toast.error "Please fill all fields"], false⟩
  else
    match post with
    | .err => ⟨st, [Toast.error "Failed to send message"], true⟩
    | .ok =>
      let st1 := { st with newMessage := "", selectedRecipient := "",
                           selectedFamily := "", showNewMessageModal := false }
      let res := fetchMessages st1 refetch
      ⟨res.1, Toast.success "Message sent successfully" :: res.2, true⟩

/-! ### Meetings component (`unnamed/part_000`) -/

/-- `isUpcoming` (Meetings component, lines 121–123):
`new Date(startTime) > new Date()`, i.e. the meeting start lies strictly after
the current time `now` (both as epoch milliseconds). -/
def isUpcoming (now : Int) (startTime : Int) : Bool :=
  now < startTime

/-- `meetings.filter(meeting => isUpcoming(meeting.start_time))` (line 125). -/
def upcomingMeetings (now : Int) (meetings : List Meeting) : List Meeting :=
  meetings.filter (fun meeting => isUpcoming now meeting.start_time)

/-- `meetings.filter(meeting => !isUpcoming(meeting.start_time))` (line 126). -/
def pastMeetings (now : Int) (meetings : List Meeting) : List Meeting :=
  meetings.filter (fun meeting => !isUpcoming now meeting.start_time)

/-! ### DocumentManagement component (`DocumentManagement.js`) -/

/-- `s.toLowerCase()`, modelled as character-wise lower-casing of the
character list. -/
def toLowerStr (s : String) : String :=
  ⟨s.data.map Char.toLower⟩

/-- Substring occurrence on character lists: `sub` occurs somewhere in the
list (at any position).  `occursIn sub [] = sub.isEmpty` because only the
empty string occurs in the empty string. -/
def occursIn (sub : List Char) : List Char → Bool
  | [] => sub.isEmpty
  | c :: rest => sub.isPrefixOf (c :: rest) || occursIn sub rest

/-- `s.includes(sub)`: substring containment. -/
def includesStr (s sub : String) : Bool :=
  occursIn sub.data s.data

/-- `matchesSearch` (`DocumentManagement.js` lines 130–131): the lower-cased
filename contains the lower-cased search term, or the optional description
does; a missing description (optional chaining `doc.description?.`) yields a
falsy value, never an error. -/
def matchesSearch (doc : Document) (searchTerm : String) : Bool :=
  includesStr (toLowerStr doc.original_filename) (toLowerStr searchTerm) ||
  (match doc.description with
   | some d => includesStr (toLowerStr d) (toLowerStr searchTerm)
   | none => false)

/-- `matchesType` (`DocumentManagement.js` line 132): empty filter matches
all, otherwise exact equality of `document_type`. -/
def matchesType (doc : Document) (filterType : String) : Bool :=
  filterType == "" || doc.document_type == filterType

/-- `filteredDocuments` (`DocumentManagement.js` lines 129–134). -/
def filteredDocuments (documents : List Document) (searchTerm filterType : String) :
    List Document :=
  documents.filter (fun doc => matchesSearch doc searchTerm && matchesType doc filterType)

/-! ### Dashboard component (`Dashboard.js`) -/

/-- The four aggregate counts (`Dashboard.js` lines 15–20). -/
structure DashStats where
  documents : Nat
  messages : Nat
  meetings : Nat
  families : Nat
deriving DecidableEq, Repr

/-- Component state of `Dashboard.js` (lines 15–24). -/
structure DashboardState where
  stats : DashStats
  recentDocuments : List Document
  recentMessages : List Message
  upcomingMeetings : List Meeting
  loading : Bool
deriving DecidableEq, Repr

/-- The initial `useState` values of the dashboard (lines 15–24). -/
def initialDashboardState : DashboardState :=
  ⟨⟨0, 0, 0, 0⟩, [], [], [], true⟩

/-- `Promise.all` over the four concurrent GET requests: succeeds with all
four payloads, or fails as a whole as soon as any request fails. -/
def promiseAll4 {α β γ δ : Type} (a : Except String α) (b : Except String β)
    (c : Except String γ) (d : Except String δ) : Except String (α × β × γ × δ) :=
  match a with
  | .error e => .error e
  | .ok x =>
    match b with
    | .error e => .error e
    | .ok y =>
      match c with
      | .error e => .error e
      | .ok z =>
        match d with
        | .error e => .error e
        | .ok w => .ok (x, y, z, w)

/-- `fetchDashboardData` (`Dashboard.js` lines 30–54).  On success of the join
the four counts are set to the response lengths and the three lists to the
first five elements of each response; on failure the catch block only logs
(the returned `Bool` records that the failure was reported) and no state is
written.  The `finally` block clears `loading` in both cases. -/
def fetchDashboardData (st : DashboardState)
    (documentsRes : Except String (List Document))
    (messagesRes : Except String (List Message))
    (meetingsRes : Except String (List Meeting))
    (familiesRes : Except String (List Family)) :
    DashboardState × Bool :=
  match promiseAll4 documentsRes messagesRes meetingsRes familiesRes with
  | .ok (docs, msgs, mts, fams) =>
    ({ stats := ⟨docs.length, msgs.length, mts.length, fams.length⟩,
       recentDocuments := docs.take 5,
       recentMessages := msgs.take 5,
       upcomingMeetings := mts.take 5,
       loading := false }, false)
  | .error _ => ({ st with loading := false }, true)

/-! ### Concrete records used by the witness and counterexample theorems -/

/-- A message from alice to bob. -/
def msgAB : Message :=
  ⟨"1", "alice", "bob", "fam1", "hi", "2024-01-01", false⟩

/-- A reply from bob to alice. -/
def msgBA : Message :=
  ⟨"2", "bob", "alice", "fam1", "yo", "2024-01-02", false⟩

/-- Participant pair `{"a-b", "c"}`: its sorted-joined key is `"a-b-c"`. -/
def msgCollide1 : Message :=
  ⟨"3", "a-b", "c", "fam1", "first", "t1", false⟩

/-- Participant pair `{"a", "b-c"}`: a distinct pair whose sorted-joined key
is also `"a-b-c"`. -/
def msgCollide2 : Message :=
  ⟨"4", "a", "b-c", "fam1", "second", "t2", false⟩

/-- The spec's §8 example input: one meeting an hour before `now`, one an hour
after (times in epoch milliseconds). -/
def exampleMeetings (now : Int) : List Meeting :=
  [⟨"m1", "Review", "", now - 3600000, now - 1800000, "f1", "a1", "scheduled"⟩,
   ⟨"m2", "Planning", "", now + 3600000, now + 7200000, "f1", "a1", "scheduled"⟩]

/-- A filled compose form over one fetched message. -/
def exampleState : MessagesState :=
  ⟨[msgAB], false, "hello", "bob", "fam1", true⟩

/-- A compose form whose message consists only of whitespace (a space, a
no-break space U+00A0 and a tab). -/
def exampleBlankState : MessagesState :=
  ⟨[msgAB], false, " \u00A0\t", "bob", "fam1", true⟩

/-- A document with no description and type `contract`. -/
def exampleDoc : Document :=
  ⟨"d1", "Will.pdf", "contract", none, [], 10, "2024"⟩

/-! ### Helper lemmas: the string comparator -/

/-- Two characters neither of which compares below the other are equal. -/
theorem charLt_eq_of_not_lt {a b : Char} (h1 : charLt a b = false)
    (h2 : charLt b a = false) : a = b := by
  have h1' : ¬ a.toNat < b.toNat := by simpa [charLt] using h1
  have h2' : ¬ b.toNat < a.toNat := by simpa [charLt] using h2
  exact Char.ext (UInt32.ext (Nat.le_antisymm (Nat.le_of_not_lt h2') (Nat.le_of_not_lt h1')))

/-- `charLt` is asymmetric. -/
theorem charLt_asymm {a b : Char} (h : charLt a b = true) : charLt b a = false := by
  have h' : a.toNat < b.toNat := by simpa [charLt] using h
  simp [charLt]
  omega

/-- The lexicographic comparator is asymmetric. -/
theorem strLtAux_asymm : ∀ x y : List Char, strLtAux x y = true → strLtAux y x = false := by
  intro x
  induction x with
  | nil =>
    intro y h
    cases y with
    | nil => simp [strLtAux] at h
    | cons b bs => simp [strLtAux]
  | cons a as ih =>
    intro y h
    cases y with
    | nil => simp [strLtAux] at h
    | cons b bs =>
      cases hab : charLt a b with
      | true =>
        have hba := charLt_asymm hab
        simp [strLtAux, hba, hab]
      | false =>
        cases hba : charLt b a with
        | true => simp [strLtAux, hab, hba] at h
        | false =>
          have h' : strLtAux as bs = true := by simpa [strLtAux, hab, hba] using h
          simpa [strLtAux, hab, hba] using ih bs h'

/-- Two character lists neither of which compares below the other are equal. -/
theorem strLtAux_eq_of_not_lt : ∀ x y : List Char, strLtAux x y = false →
    strLtAux y x = false → x = y := by
  intro x
  induction x with
  | nil =>
    intro y h1 h2
    cases y with
    | nil => rfl
    | cons b bs => simp [strLtAux] at h1
  | cons a as ih =>
    intro y h1 h2
    cases y with
    | nil => simp [strLtAux] at h2
    | cons b bs =>
      cases hab : charLt a b with
      | true => simp [strLtAux, hab] at h1
      | false =>
        cases hba : charLt b a with
        | true => simp [strLtAux, hba, charLt_asymm hba] at h2
        | false =>
          have hs1 : strLtAux as bs = false := by simpa [strLtAux, hab, hba] using h1
          have hs2 : strLtAux bs as = false := by simpa [strLtAux, hab, hba] using h2
          rw [charLt_eq_of_not_lt hab hba, ih bs hs1 hs2]

/-- The two-element sort is symmetric in its arguments: this is the reason a
message `A → B` and one `B → A` get the same conversation key. -/
theorem sortPair_comm (a b : String) : sortPair a b = sortPair b a := by
  unfold sortPair
  cases hba : strLt b a with
  | true =>
    have hab : strLt a b = false := strLtAux_asymm _ _ hba
    simp [hab, hba]
  | false =>
    cases hab : strLt a b with
    | true => simp [hab, hba]
    | false =>
      have : a = b := String.ext (strLtAux_eq_of_not_lt _ _ hab hba)
      simp [this]

/-! ### Helper lemmas: the grouping loop -/

/-- Inserting a message under key `k` appends it to the group stored at `k`. -/
theorem lookupKey_insertGrouped_same (g : List (String × List Message)) (k : String)
    (m : Message) : lookupKey (insertGrouped g k m) k = lookupKey g k ++ [m] := by
  induction g with
  | nil => simp [insertGrouped, lookupKey]
  | cons p rest ih =>
    obtain ⟨k', ms⟩ := p
    by_cases h : k' = k
    · subst h
      simp [insertGrouped, lookupKey]
    · simp [insertGrouped, lookupKey, h, ih]

/-- Inserting under key `k` leaves every other group unchanged. -/
theorem lookupKey_insertGrouped_ne (g : List (String × List Message)) (k k' : String)
    (m : Message) (h : k' ≠ k) : lookupKey (insertGrouped g k m) k' = lookupKey g k' := by
  induction g with
  | nil => simp [insertGrouped, lookupKey, Ne.symm h]
  | cons p rest ih =>
    obtain ⟨k0, ms⟩ := p
    by_cases h0 : k0 = k
    · subst h0
      simp [insertGrouped, lookupKey, Ne.symm h]
    · simp only [insertGrouped, if_neg h0, lookupKey]
      by_cases h1 : k0 = k'
      · simp [h1]
      · simp [h1, ih]

/-- Folding the messages into the groups: the group finally stored at `k` is
whatever was there before followed by the messages whose key is `k`, in
arrival order. -/
theorem lookupKey_foldl (msgs : List Message) :
    ∀ (g : List (String × List Message)) (k : String),
      lookupKey (msgs.foldl (fun g m => insertGrouped g (conversationKey m) m) g) k
        = lookupKey g k ++ msgs.filter (fun m => conversationKey m == k) := by
  induction msgs with
  | nil => intro g k; simp
  | cons m ms ih =>
    intro g k
    rw [List.foldl_cons, ih]
    by_cases h : conversationKey m = k
    · subst h
      rw [lookupKey_insertGrouped_same]
      simp [List.filter_cons, List.append_assoc]
    · rw [lookupKey_insertGrouped_ne _ _ _ _ (Ne.symm h)]
      simp [List.filter_cons, h]

/-- The group stored at key `k` is exactly the subsequence of input messages
whose conversation key is `k`. -/
theorem lookupKey_group (msgs : List Message) (k : String) :
    lookupKey (groupMessagesByConversation msgs) k
      = msgs.filter (fun m => conversationKey m == k) := by
  have h := lookupKey_foldl msgs [] k
  simpa [groupMessagesByConversation, lookupKey] using h

/-- Keys after an insertion: unchanged when the key already exists, otherwise
the new key is appended. -/
theorem keysOf_insertGrouped (g : List (String × List Message)) (k : String) (m : Message) :
    keysOf (insertGrouped g k m)
      = if k ∈ keysOf g then keysOf g else keysOf g ++ [k] := by
  induction g with
  | nil => simp [insertGrouped, keysOf]
  | cons p rest ih =>
    obtain ⟨k0, ms⟩ := p
    by_cases h : k0 = k
    · subst h
      simp [insertGrouped, keysOf]
    · simp only [insertGrouped, if_neg h, keysOf, List.map_cons]
      by_cases hk : k ∈ keysOf rest
      · simp [keysOf] at hk
        simp [hk, Ne.symm h, keysOf] at ih ⊢
        simpa [keysOf] using ih
      · simp [keysOf] at hk
        simp [hk, Ne.symm h, keysOf] at ih ⊢
        simpa [keysOf] using ih

/-- Insertion preserves distinctness of the keys. -/
theorem keysOf_insertGrouped_nodup (g : List (String × List Message)) (k : String)
    (m : Message) (h : (keysOf g).Nodup) : (keysOf (insertGrouped g k m)).Nodup := by
  rw [keysOf_insertGrouped]
  by_cases hk : k ∈ keysOf g
  · simpa [hk] using h
  · simp [hk, List.nodup_append, h]

/-- The grouping never stores two groups under the same key. -/
theorem group_keys_nodup (msgs : List Message) :
    (keysOf (groupMessagesByConversation msgs)).Nodup := by
  suffices h : ∀ g, (keysOf g).Nodup →
      (keysOf (msgs.foldl (fun g m => insertGrouped g (conversationKey m) m) g)).Nodup by
    exact h [] (by simp [keysOf])
  induction msgs with
  | nil => intro g hg; simpa using hg
  | cons m ms ih =>
    intro g hg
    rw [List.foldl_cons]
    exact ih _ (keysOf_insertGrouped_nodup _ _ _ hg)

/-- With distinct keys, membership of `(k, ms)` determines the lookup. -/
theorem lookupKey_of_mem (g : List (String × List Message)) (k : String)
    (ms : List Message) (hnd : (keysOf g).Nodup) (hmem : (k, ms) ∈ g) :
    lookupKey g k = ms := by
  induction g with
  | nil => cases hmem
  | cons p rest ih =>
    obtain ⟨k0, ms0⟩ := p
    rcases List.mem_cons.mp hmem with heq | htail
    · cases heq
      simp [lookupKey]
    · have hcons : (k0 :: keysOf rest).Nodup := hnd
      have hk0 : k0 ≠ k := by
        intro he
        subst he
        have hin : k0 ∈ keysOf rest :=
          List.mem_map_of_mem Prod.fst htail
        exact (List.nodup_cons.mp hcons).1 hin
      have hnd' : (keysOf rest).Nodup := (List.nodup_cons.mp hcons).2
      simp [lookupKey, hk0]
      exact ih hnd' htail

/-- Every stored group equals the filter of the input by its key. -/
theorem mem_group_eq_filter (msgs : List Message) (k : String) (ms : List Message)
    (h : (k, ms) ∈ groupMessagesByConversation msgs) :
    ms = msgs.filter (fun m => conversationKey m == k) := by
  rw [← lookupKey_group msgs k]
  exact (lookupKey_of_mem _ _ _ (group_keys_nodup msgs) h).symm

/-- Insertion keeps every group nonempty. -/
theorem insertGrouped_ne_nil (g : List (String × List Message)) (k : String) (m : Message)
    (h : ∀ p ∈ g, p.2 ≠ []) : ∀ p ∈ insertGrouped g k m, p.2 ≠ [] := by
  induction g with
  | nil =>
    intro p hp
    simp [insertGrouped] at hp
    subst hp
    simp
  | cons q rest ih =>
    obtain ⟨k0, ms0⟩ := q
    intro p hp
    by_cases h0 : k0 = k
    · subst h0
      simp only [insertGrouped, if_pos rfl] at hp
      rcases List.mem_cons.mp hp with heq | htail
      · subst heq; simp
      · exact h p (List.mem_cons_of_mem _ htail)
    · simp only [insertGrouped, if_neg h0] at hp
      rcases List.mem_cons.mp hp with heq | htail
      · subst heq
        exact h _ (List.mem_cons_self _ _)
      · exact ih (fun q hq => h q (List.mem_cons_of_mem _ hq)) p htail

/-- Every stored group is nonempty. -/
theorem group_ne_nil (msgs : List Message) :
    ∀ p ∈ groupMessagesByConversation msgs, p.2 ≠ [] := by
  suffices h : ∀ g, (∀ p ∈ g, p.2 ≠ []) →
      ∀ p ∈ msgs.foldl (fun g m => insertGrouped g (conversationKey m) m) g, p.2 ≠ [] by
    exact h [] (by simp)
  induction msgs with
  | nil => intro g hg; simpa using hg
  | cons m ms ih =>
    intro g hg
    rw [List.foldl_cons]
    exact ih _ (insertGrouped_ne_nil _ _ _ hg)

/-- A key whose lookup is nonempty is actually stored with that group. -/
theorem lookupKey_mem (g : List (String × List Message)) (k : String)
    (h : lookupKey g k ≠ []) : (k, lookupKey g k) ∈ g := by
  induction g with
  | nil => simp [lookupKey] at h
  | cons p rest ih =>
    obtain ⟨k0, ms0⟩ := p
    by_cases h0 : k0 = k
    · subst h0
      simp [lookupKey]
    · simp only [lookupKey, if_neg h0] at h ⊢
      exact List.mem_cons_of_mem _ (ih h)

/-- Every input message is a member of the group stored under its own key. -/
theorem mem_own_group (msgs : List Message) (m : Message) (hm : m ∈ msgs) :
    (conversationKey m, msgs.filter (fun m' => conversationKey m' == conversationKey m))
      ∈ groupMessagesByConversation msgs := by
  have hl := lookupKey_group msgs (conversationKey m)
  have hne : msgs.filter (fun m' => conversationKey m' == conversationKey m) ≠ [] := by
    intro hnil
    have hmem : m ∈ msgs.filter (fun m' => conversationKey m' == conversationKey m) :=
      List.mem_filter.mpr ⟨hm, by simp⟩
    rw [hnil] at hmem
    cases hmem
  have h := lookupKey_mem (groupMessagesByConversation msgs) (conversationKey m)
    (by rw [hl]; exact hne)
  rwa [hl] at h

/-! ### Helper lemmas: injectivity of the joined key for hyphen-free IDs -/

/-- Splitting at a separator character that occurs in neither left part is
unambiguous. -/
theorem sep_append_inj : ∀ (a c b d : List Char), '-' ∉ a → '-' ∉ c →
    a ++ '-' :: b = c ++ '-' :: d → a = c ∧ b = d := by
  intro a
  induction a with
  | nil =>
    intro c b d ha hc h
    cases c with
    | nil =>
      simp only [List.nil_append] at h
      exact ⟨rfl, (List.cons.injEq _ _ _ _ ▸ h).2⟩
    | cons c0 cs =>
      simp only [List.nil_append, List.cons_append] at h
      have h1 : '-' = c0 := (List.cons.injEq _ _ _ _ ▸ h).1
      exact absurd (by rw [← h1]; exact List.mem_cons_self _ _ : '-' ∈ c0 :: cs) hc
  | cons a0 as ih =>
    intro c b d ha hc h
    cases c with
    | nil =>
      simp only [List.nil_append, List.cons_append] at h
      have h1 : a0 = '-' := (List.cons.injEq _ _ _ _ ▸ h).1
      exact absurd (by rw [← h1]; exact List.mem_cons_self _ _ : '-' ∈ a0 :: as) ha
    | cons c0 cs =>
      simp only [List.cons_append] at h
      have h1 : a0 = c0 := (List.cons.injEq _ _ _ _ ▸ h).1
      have h2 : as ++ '-' :: b = cs ++ '-' :: d := (List.cons.injEq _ _ _ _ ▸ h).2
      have ha' : '-' ∉ as := fun hm => ha (List.mem_cons_of_mem _ hm)
      have hc' : '-' ∉ cs := fun hm => hc (List.mem_cons_of_mem _ hm)
      obtain ⟨e1, e2⟩ := ih cs b d ha' hc' h2
      exact ⟨by rw [h1, e1], e2⟩

/-- The joined key determines the sorted pair, provided neither component
contains the `'-'` separator. -/
theorem joinKey_inj (p q : String × String) (hp1 : '-' ∉ p.1.data) (hp2 : '-' ∉ p.2.data)
    (hq1 : '-' ∉ q.1.data) (hq2 : '-' ∉ q.2.data) (h : joinKey p = joinKey q) : p = q := by
  have hd : p.1.data ++ '-' :: p.2.data = q.1.data ++ '-' :: q.2.data := by
    have hc := congrArg String.data h
    simp only [joinKey, String.data_append] at hc
    simpa [List.append_assoc] using hc
  obtain ⟨e1, e2⟩ := sep_append_inj _ _ _ _ hp1 hq1 hd
  obtain ⟨p1, p2⟩ := p
  obtain ⟨q1, q2⟩ := q
  simp only [Prod.mk.injEq]
  exact ⟨String.ext e1, String.ext e2⟩

/-- Each component of the sorted pair is one of the two inputs. -/
theorem sortPair_fst_cases (a b : String) : (sortPair a b).1 = a ∨ (sortPair a b).1 = b := by
  unfold sortPair
  by_cases h : strLt b a = true
  · simp [h]
  · simp [h]

/-- Each component of the sorted pair is one of the two inputs. -/
theorem sortPair_snd_cases (a b : String) : (sortPair a b).2 = a ∨ (sortPair a b).2 = b := by
  unfold sortPair
  by_cases h : strLt b a = true
  · simp [h]
  · simp [h]

/-- For hyphen-free participant IDs the conversation key determines the
sorted participant pair. -/
theorem conversationKey_inj (m1 m2 : Message)
    (h1s : '-' ∉ m1.sender_id.data) (h1r : '-' ∉ m1.recipient_id.data)
    (h2s : '-' ∉ m2.sender_id.data) (h2r : '-' ∉ m2.recipient_id.data)
    (h : conversationKey m1 = conversationKey m2) :
    sortPair m1.sender_id m1.recipient_id = sortPair m2.sender_id m2.recipient_id := by
  apply joinKey_inj _ _ _ _ _ _ h
  · rcases sortPair_fst_cases m1.sender_id m1.recipient_id with he | he <;> rw [he] <;>
      assumption
  · rcases sortPair_snd_cases m1.sender_id m1.recipient_id with he | he <;> rw [he] <;>
      assumption
  · rcases sortPair_fst_cases m2.sender_id m2.recipient_id with he | he <;> rw [he] <;>
      assumption
  · rcases sortPair_snd_cases m2.sender_id m2.recipient_id with he | he <;> rw [he] <;>
      assumption

/-! ### Helper lemmas: counting and filtering -/

/-- One insertion grows the total message count by exactly one. -/
theorem totalGrouped_insertGrouped (g : List (String × List Message)) (k : String)
    (m : Message) : totalGrouped (insertGrouped g k m) = totalGrouped g + 1 := by
  induction g with
  | nil => simp [insertGrouped, totalGrouped]
  | cons p rest ih =>
    obtain ⟨k0, ms0⟩ := p
    by_cases h : k0 = k
    · subst h
      simp [insertGrouped, totalGrouped]
      omega
    · simp [insertGrouped, totalGrouped, h] at ih ⊢
      omega

/-- The empty search string occurs in every string. -/
theorem occursIn_nil (l : List Char) : occursIn [] l = true := by
  cases l with
  | nil => rfl
  | cons c rest => simp [occursIn, List.isPrefixOf]

/-! ### Claim theorems -/

/-- Claim C1, counterexample: with participant IDs that contain the `'-'`
join character, two messages with distinct unordered participant pairs
(`{"a-b", "c"}` and `{"a", "b-c"}`) are placed in the same group, because both
pairs produce the joined key `"a-b-c"`. -/
theorem grouping_distinct_pairs_share_group :
    groupMessagesByConversation [msgCollide1, msgCollide2]
        = [("a-b-c", [msgCollide1, msgCollide2])] ∧
    ¬(msgCollide1.sender_id = msgCollide2.sender_id ∧
      msgCollide1.recipient_id = msgCollide2.recipient_id) ∧
    ¬(msgCollide1.sender_id = msgCollide2.recipient_id ∧
      msgCollide1.recipient_id = msgCollide2.sender_id) := by
  refine ⟨by decide, by decide, by decide⟩

/-- Claim C1 (amended): provided no participant ID contains the `'-'` join
character, the conversation grouping maps each stored key to exactly the
subsequence of input messages whose unordered participant pair is that
group's pair, in arrival order: every message of a group has the group's
sorted participant pair `p`, and the group is precisely the input filtered to
that pair. -/
theorem grouping_exact_by_pair (msgs : List Message)
    (hfree : ∀ m ∈ msgs, '-' ∉ m.sender_id.data ∧ '-' ∉ m.recipient_id.data)
    (k : String) (ms : List Message)
    (hmem : (k, ms) ∈ groupMessagesByConversation msgs) :
    ∃ p : String × String,
      (∀ m ∈ ms, sortPair m.sender_id m.recipient_id = p) ∧
      ms = msgs.filter (fun m => sortPair m.sender_id m.recipient_id == p) := by
  have hms : ms = msgs.filter (fun m => conversationKey m == k) :=
    mem_group_eq_filter msgs k ms hmem
  have hne : ms ≠ [] := group_ne_nil msgs (k, ms) hmem
  obtain ⟨m0, hm0⟩ := List.exists_mem_of_ne_nil ms hne
  have hm0' := hm0
  rw [hms] at hm0'
  have hm0msgs : m0 ∈ msgs := (List.mem_filter.mp hm0').1
  have hm0key : conversationKey m0 = k := by
    have h := (List.mem_filter.mp hm0').2
    simpa using h
  refine ⟨sortPair m0.sender_id m0.recipient_id, ?_, ?_⟩
  · intro m hm
    rw [hms] at hm
    have hmm : m ∈ msgs := (List.mem_filter.mp hm).1
    have hmk : conversationKey m = k := by
      have h := (List.mem_filter.mp hm).2
      simpa using h
    exact conversationKey_inj m m0 (hfree m hmm).1 (hfree m hmm).2
      (hfree m0 hm0msgs).1 (hfree m0 hm0msgs).2 (hmk.trans hm0key.symm)
  · rw [hms]
    apply List.filter_congr
    intro m hm
    rcases eq_or_ne (conversationKey m) k with he | he
    · have hp : sortPair m.sender_id m.recipient_id
          = sortPair m0.sender_id m0.recipient_id :=
        conversationKey_inj m m0 (hfree m hm).1 (hfree m hm).2
          (hfree m0 hm0msgs).1 (hfree m0 hm0msgs).2 (he.trans hm0key.symm)
      simp [he, hp]
    · have hp : sortPair m.sender_id m.recipient_id
          ≠ sortPair m0.sender_id m0.recipient_id := by
        intro hpe
        apply he
        have hk : conversationKey m = conversationKey m0 := by
          unfold conversationKey
          rw [hpe]
        exact hk.trans hm0key
      simp [he, hp]

/-- Claim C1, witness: the amended theorem applied to the concrete
conversation `[msgAB, msgBA]` and its single stored group. -/
theorem grouping_exact_by_pair_witness :
    ∃ p : String × String,
      (∀ m ∈ [msgAB, msgBA], sortPair m.sender_id m.recipient_id = p) ∧
      [msgAB, msgBA]
        = List.filter (fun m => sortPair m.sender_id m.recipient_id == p) [msgAB, msgBA] :=
  grouping_exact_by_pair [msgAB, msgBA] (by decide) "alice-bob" [msgAB, msgBA] (by decide)

/-- Claim C2: a message with sender `A`, recipient `B` and one with sender
`B`, recipient `A` receive the same conversation key and land in the same
stored group. -/
theorem grouping_symmetric_pairs (msgs : List Message) (m1 m2 : Message) (A B : String)
    (h1 : m1 ∈ msgs) (h2 : m2 ∈ msgs)
    (e1 : m1.sender_id = A) (e2 : m1.recipient_id = B)
    (e3 : m2.sender_id = B) (e4 : m2.recipient_id = A) :
    conversationKey m1 = conversationKey m2 ∧
    ∃ k ms, (k, ms) ∈ groupMessagesByConversation msgs ∧ m1 ∈ ms ∧ m2 ∈ ms := by
  have hkey : conversationKey m1 = conversationKey m2 := by
    unfold conversationKey
    rw [e1, e2, e3, e4, sortPair_comm]
  refine ⟨hkey, conversationKey m1,
    msgs.filter (fun m' => conversationKey m' == conversationKey m1), ?_, ?_, ?_⟩
  · exact mem_own_group msgs m1 h1
  · exact List.mem_filter.mpr ⟨h1, by simp⟩
  · exact List.mem_filter.mpr ⟨h2, by simp [hkey]⟩

/-- Claim C2, witness: the symmetric pair `alice → bob` / `bob → alice` on a
concrete two-message list. -/
theorem grouping_symmetric_pairs_witness :
    conversationKey msgAB = conversationKey msgBA ∧
    ∃ k ms, (k, ms) ∈ groupMessagesByConversation [msgAB, msgBA] ∧
      msgAB ∈ ms ∧ msgBA ∈ ms :=
  grouping_symmetric_pairs [msgAB, msgBA] msgAB msgBA "alice" "bob"
    (by decide) (by decide) rfl rfl rfl rfl

/-- Claim C3: the groups of the conversation grouping hold exactly as many
messages in total as the input list: no message is dropped and none is
duplicated. -/
theorem grouping_message_count (msgs : List Message) :
    totalGrouped (groupMessagesByConversation msgs) = msgs.length := by
  suffices h : ∀ g,
      totalGrouped (msgs.foldl (fun g m => insertGrouped g (conversationKey m) m) g)
        = totalGrouped g + msgs.length by
    simpa [totalGrouped] using h []
  induction msgs with
  | nil => intro g; simp
  | cons m ms ih =>
    intro g
    rw [List.foldl_cons, ih, totalGrouped_insertGrouped]
    simp [List.length_cons]
    omega

/-- Claim C4: for a fixed `now`, a meeting starting strictly after `now` is in
the upcoming sequence and not the past one, and every other meeting is in the
past sequence and not the upcoming one; on the spec's example input
`[now − 1h, now + 1h]` the partition yields exactly one upcoming and exactly
one past entry. -/
theorem meetings_partition_by_start (now : Int) (meetings : List Meeting) :
    (∀ m ∈ meetings,
      (now < m.start_time →
        m ∈ upcomingMeetings now meetings ∧ m ∉ pastMeetings now meetings) ∧
      (¬now < m.start_time →
        m ∈ pastMeetings now meetings ∧ m ∉ upcomingMeetings now meetings)) ∧
    (upcomingMeetings now (exampleMeetings now)).length = 1 ∧
    (pastMeetings now (exampleMeetings now)).length = 1 := by
  have hpast : ¬now < now - 3600000 := by omega
  have hfut : now < now + 3600000 := by omega
  refine ⟨?_, ?_, ?_⟩
  · intro m hm
    constructor
    · intro hlt
      constructor
      · exact List.mem_filter.mpr ⟨hm, by simp [isUpcoming, hlt]⟩
      · intro hmem
        have hp := (List.mem_filter.mp hmem).2
        simp [isUpcoming, hlt] at hp
    · intro hge
      constructor
      · exact List.mem_filter.mpr ⟨hm, by simp [isUpcoming, hge]⟩
      · intro hmem
        have hp := (List.mem_filter.mp hmem).2
        simp [isUpcoming, hge] at hp
  · simp [upcomingMeetings, exampleMeetings, isUpcoming, List.filter_cons, hpast, hfut]
  · simp [pastMeetings, exampleMeetings, isUpcoming, List.filter_cons, hpast, hfut]

/-- Claim C4, witness: the partition at `now = 0` on the spec's example
input. -/
theorem meetings_partition_by_start_witness :
    (upcomingMeetings 0 (exampleMeetings 0)).length = 1 ∧
    (pastMeetings 0 (exampleMeetings 0)).length = 1 :=
  ⟨(meetings_partition_by_start 0 (exampleMeetings 0)).2.1,
   (meetings_partition_by_start 0 (exampleMeetings 0)).2.2⟩

/-- Claim C5: when the compose form is filled in and the POST to
`/api/messages` fails, `sendMessage` leaves the whole component state — the
message list and every compose-form field — unchanged and shows exactly one
failure notification (and nothing else). -/
theorem sendMessage_post_failure (st : MessagesState) (refetch : FetchOutcome)
    (h1 : trimStr st.newMessage ≠ "") (h2 : st.selectedRecipient ≠ "")
    (h3 : st.selectedFamily ≠ "") :
    sendMessage st PostOutcome.err refetch
      = ⟨st, [Toast.error "Failed to send message"], true⟩ := by
  unfold sendMessage
  rw [if_neg (by push_neg; exact ⟨h1, h2, h3⟩)]

/-- Claim C5, witness: a concrete filled form and a failing POST. -/
theorem sendMessage_post_failure_witness :
    sendMessage exampleState PostOutcome.err FetchOutcome.err
      = ⟨exampleState, [Toast.error "Failed to send message"], true⟩ :=
  sendMessage_post_failure exampleState FetchOutcome.err (by decide) (by decide) (by decide)

/-- Claim C6: the dashboard fetch is an all-or-nothing join: when any of the
four reads fails, no stat count and no recent-item list is written (the state
keeps its prior values), the failure is reported (the returned flag), and
loading stops. -/
theorem dashboard_all_or_nothing (st : DashboardState)
    (documentsRes : Except String (List Document))
    (messagesRes : Except String (List Message))
    (meetingsRes : Except String (List Meeting))
    (familiesRes : Except String (List Family))
    (h : (∃ e, documentsRes = Except.error e) ∨ (∃ e, messagesRes = Except.error e) ∨
         (∃ e, meetingsRes = Except.error e) ∨ (∃ e, familiesRes = Except.error e)) :
    fetchDashboardData st documentsRes messagesRes meetingsRes familiesRes
      = ({ st with loading := false }, true) := by
  cases documentsRes with
  | error e => rfl
  | ok docs =>
    cases messagesRes with
    | error e => rfl
    | ok msgs =>
      cases meetingsRes with
      | error e => rfl
      | ok mts =>
        cases familiesRes with
        | error e => rfl
        | ok fams =>
          exfalso
          rcases h with ⟨e, he⟩ | ⟨e, he⟩ | ⟨e, he⟩ | ⟨e, he⟩ <;> simp at he

/-- Claim C6, witness: the meetings read fails with a 500 while the other
three succeed. -/
theorem dashboard_all_or_nothing_witness :
    fetchDashboardData initialDashboardState (Except.ok []) (Except.ok [])
        (Except.error "500") (Except.ok [])
      = ({ initialDashboardState with loading := false }, true) :=
  dashboard_all_or_nothing initialDashboardState (Except.ok []) (Except.ok [])
    (Except.error "500") (Except.ok []) (Or.inr (Or.inr (Or.inl ⟨"500", rfl⟩)))

/-- Claim C7: the document filter with an empty search term and an empty type
filter returns the input list unchanged, in the same order. -/
theorem filteredDocuments_empty_criteria (documents : List Document) :
    filteredDocuments documents "" "" = documents := by
  apply List.filter_eq_self.mpr
  intro doc hdoc
  have hs : matchesSearch doc "" = true := by
    have h0 : includesStr (toLowerStr doc.original_filename) (toLowerStr "") = true := by
      unfold includesStr
      have hdata : (toLowerStr "").data = [] := rfl
      rw [hdata]
      exact occursIn_nil _
    unfold matchesSearch
    rw [h0]
    simp
  have ht : matchesType doc "" = true := by simp [matchesType]
  simp [hs, ht]

/-- Claim C8: with a non-empty type filter matched by no document, the filter
returns the empty list — including for documents with a missing description,
on which the predicate is still total (it evaluates, to `false`). -/
theorem filteredDocuments_unmatched_type (documents : List Document)
    (searchTerm filterType : String) (hft : filterType ≠ "")
    (hnone : ∀ doc ∈ documents, doc.document_type ≠ filterType) :
    filteredDocuments documents searchTerm filterType = [] := by
  apply List.filter_eq_nil_iff.mpr
  intro doc hdoc
  simp [matchesType, hft, hnone doc hdoc]

/-- Claim C8, witness: one description-less `contract` document against the
`report` type filter. -/
theorem filteredDocuments_unmatched_type_witness :
    filteredDocuments [exampleDoc] "" "report" = [] :=
  filteredDocuments_unmatched_type [exampleDoc] "" "report" (by decide) (by decide)

/-- Claim C9: when the message content trims to empty, or the recipient or
family field is empty, `sendMessage` performs no POST, shows the single
`'Please fill all fields'` error notification, and leaves the component state
unchanged. -/
theorem sendMessage_invalid_form (st : MessagesState) (post : PostOutcome)
    (refetch : FetchOutcome)
    (h : trimStr st.newMessage = "" ∨ st.selectedRecipient = "" ∨ st.selectedFamily = "") :
    sendMessage st post refetch = ⟨st, [Toast.error "Please fill all fields"], false⟩ := by
  unfold sendMessage
  rw [if_pos h]

/-- Claim C9, witness: a whitespace-only message body. -/
theorem sendMessage_invalid_form_witness :
    sendMessage exampleBlankState PostOutcome.ok FetchOutcome.err
      = ⟨exampleBlankState, [Toast.error "Please fill all fields"], false⟩ :=
  sendMessage_invalid_form exampleBlankState PostOutcome.ok FetchOutcome.err
    (Or.inl (by decide))

/-- Claim C10: on a successful dashboard fetch the `upcomingMeetings` list is
the first five fetched meetings in fetched order, with no reference to the
current time; in particular, for any `now`, a meeting that is not upcoming
relative to `now` still appears. -/
theorem dashboard_upcoming_first_five (st : DashboardState) (docs : List Document)
    (msgs : List Message) (mts : List Meeting) (fams : List Family) :
    (fetchDashboardData st (Except.ok docs) (Except.ok msgs) (Except.ok mts)
        (Except.ok fams)).1.upcomingMeetings = mts.take 5 ∧
    ∀ now : Int, ∃ mt : Meeting, isUpcoming now mt.start_time = false ∧
      (fetchDashboardData st (Except.ok docs) (Except.ok msgs) (Except.ok [mt])
          (Except.ok fams)).1.upcomingMeetings = [mt] := by
  refine ⟨rfl, ?_⟩
  intro now
  refine ⟨⟨"p", "Past review", "", now - 1, now, "f1", "a1", "completed"⟩, ?_, rfl⟩
  simp [isUpcoming]
